import Mathlib

/-
Verification development for the per-repository memory subsystem of the
codexCLI-mem repository (Rust sources under codex-rs/memory).

The Rust code is shallowly embedded:

* `MemoryItem` and its enumerations mirror `memory/src/types.rs`.
* The JSONL backend (`memory/src/store/jsonl.rs`) is modelled on the parsed
  content of its file: a `List MemoryItem` in file order.  Reading a missing
  file is modelled by `Option` (`none` = `ErrorKind::NotFound`).
* The SQLite backend (`memory/src/store/sqlite.rs`) is modelled on its row
  list; `ORDER BY updated_at DESC` is an insertion sort with a descending
  comparator (ties between equal `updated_at` values are left unspecified by
  SQLite, so all theorems about listing state permutation and sortedness,
  which are tie-robust, rather than exact sequences).
* Rust `String::cmp` is lexicographic byte order; for the ASCII RFC 3339
  timestamps used throughout it coincides with `lexLeChars` on the char data.
* `serde_json` parsing of a line is abstracted as a `String → Option
  MemoryItem` parameter where a claim quantifies over file contents;
  serialization of the enumerations follows the derived serde encoding of
  `types.rs` (no `rename` attribute: the Rust variant identifier is emitted).
* The redactor (`memory/src/redact.rs`) is embedded with hand-rolled scanners
  equivalent to its four regexes (the character classes of consecutive
  subpatterns are disjoint, so greedy matching is the unique maximal-run
  parse), and the f64 Shannon-entropy threshold `ent >= 4.5` is expressed
  exactly over the naturals as `n ^ (2 * n) ≥ 2 ^ (9 * n) * Π cᵢ ^ (2 * cᵢ)`.
-/

set_option maxRecDepth 16384

/-! ## Data model (memory/src/types.rs) -/

/-- Scope enumeration from types.rs. -/
inductive Scope
  | Global
  | Repo
  | Dir
deriving DecidableEq

/-- Kind enumeration from types.rs. -/
inductive Kind
  | Pref
  | Fact
  | Profile
  | Instruction
  | Note
deriving DecidableEq

/-- Status enumeration from types.rs. -/
inductive Status
  | Active
  | Archived
deriving DecidableEq

/-- Relevance hints from types.rs. -/
structure RelevanceHints where
  files : List String
  crates : List String
  languages : List String
  commands : List String
deriving DecidableEq

/-- Usage counters from types.rs. -/
structure Counters where
  seen_count : Nat
  used_count : Nat
  last_used_at : Option String
deriving DecidableEq

/-- Expiry record from types.rs. -/
structure Expiry where
  ttl_secs : Option Nat
  review_after : Option String
deriving DecidableEq

/-- The persisted item, fields in the declaration order of types.rs. -/
structure MemoryItem where
  id : String
  created_at : String
  updated_at : String
  schema_version : Nat
  source : String
  scope : Scope
  status : Status
  kind : Kind
  content : String
  tags : List String
  relevance_hints : RelevanceHints
  counters : Counters
  expiry : Option Expiry
deriving DecidableEq

/-- The value returned by `stats()` in both backends (jsonl.rs lines 146-166,
sqlite.rs lines 392-423), with the JSON object flattened into named fields. -/
structure StatsResult where
  total : Nat
  active : Nat
  archived : Nat
  byGlobal : Nat
  byRepo : Nat
  byDir : Nat
deriving DecidableEq

/-- Error kinds surfaced by store operations (`anyhow::bail!` sites). -/
inductive StoreErr
  | notFound
  | conflict
deriving DecidableEq

/-! ## String utilities

Rust `String::cmp` is lexicographic over bytes; on UTF-8 that order agrees
with lexicographic order over code points, embedded here structurally so the
kernel can evaluate it. -/

/-- Lexicographic less-or-equal on char lists (Rust `String::cmp` ≤). -/
def lexLeChars : List Char → List Char → Bool
  | [], _ => true
  | _ :: _, [] => false
  | a :: as, b :: bs => if a < b then true else if b < a then false else lexLeChars as bs

theorem lexLeChars_total : ∀ as bs, lexLeChars as bs = true ∨ lexLeChars bs as = true := by
  intro as
  induction as with
  | nil => intro bs; left; rfl
  | cons a as ih =>
    intro bs
    cases bs with
    | nil => right; rfl
    | cons b bs =>
      rcases lt_trichotomy a b with h | h | h
      · left; simp [lexLeChars, h]
      · subst h
        rcases ih bs with h2 | h2
        · left; simp [lexLeChars, h2, lt_irrefl]
        · right; simp [lexLeChars, h2, lt_irrefl]
      · right; simp [lexLeChars, h]

theorem lexLeChars_trans :
    ∀ as bs cs, lexLeChars as bs = true → lexLeChars bs cs = true →
      lexLeChars as cs = true := by
  intro as
  induction as with
  | nil => intro bs cs _ _; rfl
  | cons a as ih =>
    intro bs cs hab hbc
    cases bs with
    | nil => simp [lexLeChars] at hab
    | cons b bs =>
      cases cs with
      | nil => simp [lexLeChars] at hbc
      | cons c cs =>
        simp only [lexLeChars] at hab hbc ⊢
        by_cases hab1 : a < b
        · -- a < b; combine with b ≤ c information
          by_cases hbc1 : b < c
          · have : a < c := lt_trans hab1 hbc1
            simp [this]
          · by_cases hbc2 : c < b
            · simp [hbc1, hbc2] at hbc
            · have hbc3 : b = c := le_antisymm (not_lt.mp hbc2) (not_lt.mp hbc1)
              subst hbc3
              simp [hab1]
        · by_cases hab2 : b < a
          · simp [hab1, hab2] at hab
          · have hab3 : a = b := le_antisymm (not_lt.mp hab2) (not_lt.mp hab1)
            subst hab3
            by_cases hbc1 : a < c
            · simp [hbc1]
            · by_cases hbc2 : c < a
              · simp [hbc1, hbc2] at hbc
              · simp only [if_neg hbc1, if_neg hbc2]
                simp only [if_neg hab1, if_neg hab2] at hab
                simp only [if_neg hbc1, if_neg hbc2] at hbc
                exact ih bs cs hab hbc

/-- Descending order on `updated_at` (Rust comparator
`|a, b| b.updated_at.cmp(&a.updated_at)`, jsonl.rs line 141 and the
`ORDER BY updated_at DESC` clauses of sqlite.rs): `a` may come before `b`
exactly when `b.updated_at ≤ a.updated_at`. -/
def updatedDescRel (a b : MemoryItem) : Prop :=
  lexLeChars b.updated_at.data a.updated_at.data = true

instance : DecidableRel updatedDescRel := fun _ _ =>
  inferInstanceAs (Decidable (_ = true))

instance : IsTotal MemoryItem updatedDescRel :=
  ⟨fun a b => lexLeChars_total b.updated_at.data a.updated_at.data⟩

instance : IsTrans MemoryItem updatedDescRel :=
  ⟨fun _ _ _ hab hbc => lexLeChars_trans _ _ _ hbc hab⟩

/-- A list is in the order produced by sorting on `updated_at` descending. -/
def sortedByUpdatedDesc (l : List MemoryItem) : Prop :=
  List.Sorted updatedDescRel l

instance (l : List MemoryItem) : Decidable (sortedByUpdatedDesc l) :=
  inferInstanceAs (Decidable (List.Pairwise _ l))

/-- Sort by `updated_at` descending (jsonl.rs line 141 `sort_by`, and the SQL
`ORDER BY updated_at DESC`).  An insertion sort is used so that the kernel can
evaluate it; all theorems stated about the result (permutation and
pairwise sortedness) are independent of the order of ties, which the sources
do not pin down either. -/
def sortByUpdatedDesc (l : List MemoryItem) : List MemoryItem :=
  List.insertionSort updatedDescRel l

theorem sortByUpdatedDesc_perm (l : List MemoryItem) : (sortByUpdatedDesc l).Perm l :=
  List.perm_insertionSort updatedDescRel l

theorem sortByUpdatedDesc_sorted (l : List MemoryItem) :
    sortedByUpdatedDesc (sortByUpdatedDesc l) :=
  List.sorted_insertionSort updatedDescRel l

/-- Length of the maximal prefix run of characters satisfying `p`. -/
def runLen (p : Char → Bool) : List Char → Nat
  | [] => 0
  | c :: rest => if p c then runLen p rest + 1 else 0

/-- Rust `str::trim`: strip leading and trailing whitespace. -/
def trimChars (cs : List Char) : List Char :=
  ((cs.dropWhile Char.isWhitespace).reverse.dropWhile Char.isWhitespace).reverse

/-- String-level wrapper for `trimChars`. -/
def trimS (s : String) : String :=
  ⟨trimChars s.data⟩

/-- Fuel-based recursion for `wsTokenCount`; every step consumes at least one
character, so fuel equal to the list length is enough, and the fuel keeps the
recursion structural so the kernel can evaluate it. -/
def wsTokenCountF : Nat → List Char → Nat
  | 0, _ => 0
  | _ + 1, [] => 0
  | fuel + 1, c :: rest =>
    if c.isWhitespace then wsTokenCountF fuel rest
    else 1 + wsTokenCountF fuel (rest.drop (runLen (fun c => !c.isWhitespace) (c :: rest) - 1))

/-- Rust `str::split_whitespace().count()`: the number of maximal
non-whitespace runs (recall.rs line 65). -/
def wsTokenCount (cs : List Char) : Nat :=
  wsTokenCountF cs.length cs

/-! ## The JSONL backend (memory/src/store/jsonl.rs)

The store state is the parsed content of the file: the `MemoryItem` of every
parseable non-blank line, in file order (the result of `read_all`).  All
operations except `add` rewrite the file from this list (`write_all`), so the
list *is* the state.  I/O failures are outside the model. -/

namespace JsonlMemoryStore

/-- Lines 16-32: read the file and parse each non-blank line, skipping lines
that do not parse.  A missing file (`ErrorKind::NotFound`) reads as empty
content; `parse` stands for `serde_json::from_str::<MemoryItem>` applied to
the untrimmed line. -/
def read_all (file : Option (List String)) (parse : String → Option MemoryItem) :
    Except StoreErr (List MemoryItem) :=
  match file with
  | none => .ok []
  | some lines =>
    .ok (lines.filterMap fun l => if (trimChars l.data).isEmpty then none else parse l)

/-- Lines 50-63: `add` appends one record line to the file. -/
def add (items : List MemoryItem) (item : MemoryItem) : List MemoryItem :=
  items ++ [item]

/-- Lines 65-73: `update` replaces every record whose id matches and rewrites
the file; it returns `Ok` whether or not any record matched. -/
def update (items : List MemoryItem) (item : MemoryItem) :
    Except StoreErr (List MemoryItem) :=
  .ok (items.map fun it => if it.id = item.id then item else it)

/-- Lines 75-79: `delete` removes every record whose id matches. -/
def delete (items : List MemoryItem) (id : String) : List MemoryItem :=
  items.filter fun i => !(i.id = id : Bool)

/-- Lines 81-84: `get` returns the first parsed record whose id matches. -/
def get (items : List MemoryItem) (id : String) : Option MemoryItem :=
  items.find? fun i => i.id = id

/-- Lines 86-99: `list` retains by scope, then by status; no reordering. -/
def list (items : List MemoryItem) (scope : Option Scope) (status : Option Status) :
    List MemoryItem :=
  let items := match scope with
    | some sc => items.filter fun i => i.scope = sc
    | none => items
  match status with
  | some st => items.filter fun i => i.status = st
  | none => items

/-- Lines 101-113: `archive` sets the status of every matching record. -/
def archive (items : List MemoryItem) (id : String) (archived : Bool) :
    Except StoreErr (List MemoryItem) :=
  .ok (items.map fun it =>
    if it.id = id then
      { it with status := if archived then Status.Archived else Status.Active }
    else it)

/-- Lines 115-123: `export` writes one record line per item, in file order
(named `exportItems` here because `export` is reserved in Lean). -/
def exportItems (items : List MemoryItem) : List MemoryItem :=
  items

/-- Insert-or-replace keyed on `id`: one `HashMap::insert` step of `import`
(jsonl.rs line 136).  The map is modelled as a list keyed by first insertion;
its value enumeration order is unspecified in Rust and everything proved
below about the result is invariant under it once sorted. -/
def upsertById (m : List MemoryItem) (item : MemoryItem) : List MemoryItem :=
  if m.any (fun i => i.id = item.id) then
    m.map fun i => if i.id = item.id then item else i
  else m ++ [item]

/-- Lines 125-144: `import` folds the incoming records into the id-keyed map
of the current content (later records with the same id overwrite earlier
ones), sorts by `updated_at` descending, rewrites the file, and returns the
number of records parsed. -/
def doImport (items incoming : List MemoryItem) : List MemoryItem × Nat :=
  (sortByUpdatedDesc (incoming.foldl upsertById items), incoming.length)

/-- Lines 146-166: `stats` counts records by status and scope. -/
def stats (items : List MemoryItem) : StatsResult :=
  { total := items.length
    active := (items.filter fun i => i.status = Status.Active).length
    archived := (items.filter fun i => i.status = Status.Archived).length
    byGlobal := (items.filter fun i => i.scope = Scope.Global).length
    byRepo := (items.filter fun i => i.scope = Scope.Repo).length
    byDir := (items.filter fun i => i.scope = Scope.Dir).length }

end JsonlMemoryStore

/-! ## The SQLite backend (memory/src/store/sqlite.rs)

The store state is the list of rows of `memory_items`.  The `id` column is
the primary key, so a well-formed state has pairwise distinct ids; the
operations below implement the SQL statements of sqlite.rs on the row list.
Tie order under `ORDER BY updated_at DESC` is unspecified by SQLite, and the
theorems below only use tie-robust consequences (permutation, pairwise
sortedness). -/

namespace SqliteMemoryStore

/-- Lines 38-45: lowercase column encoding of `Scope`. -/
def scope_as_str : Scope → String
  | Scope.Global => "global"
  | Scope.Repo => "repo"
  | Scope.Dir => "dir"

/-- Lines 47-53: lowercase column encoding of `Status`. -/
def status_as_str : Status → String
  | Status.Active => "active"
  | Status.Archived => "archived"

/-- Lines 74-84: lowercase column encoding of `Kind`. -/
def kind_as_str : Kind → String
  | Kind.Pref => "pref"
  | Kind.Fact => "fact"
  | Kind.Profile => "profile"
  | Kind.Instruction => "instruction"
  | Kind.Note => "note"

/-- Lines 212-227: `add` is a plain `INSERT`; the primary key rejects a
duplicate id. -/
def add (rows : List MemoryItem) (item : MemoryItem) :
    Except StoreErr (List MemoryItem) :=
  if rows.any (fun r => r.id = item.id) then .error .conflict
  else .ok (rows ++ [item])

/-- Lines 229-248: `update` runs `UPDATE ... WHERE id=?1` and fails with the
not-found error when no row was affected. -/
def update (rows : List MemoryItem) (item : MemoryItem) :
    Except StoreErr (List MemoryItem) :=
  if rows.any (fun r => r.id = item.id) then
    .ok (rows.map fun r => if r.id = item.id then item else r)
  else .error .notFound

/-- Lines 250-254: `delete` removes the matching row; no error if absent. -/
def delete (rows : List MemoryItem) (id : String) : List MemoryItem :=
  rows.filter fun r => !(r.id = id : Bool)

/-- Lines 256-269: `get` selects the row with the given id. -/
def get (rows : List MemoryItem) (id : String) : Option MemoryItem :=
  rows.find? fun r => r.id = id

/-- Whether a row passes the optional scope/status `WHERE` clauses of
`list` (lines 281-298). -/
def listPred (scope : Option Scope) (status : Option Status) (r : MemoryItem) : Bool :=
  (match scope with | some sc => r.scope = sc | none => true) &&
  (match status with | some st => r.status = st | none => true)

/-- Lines 271-314: `list` filters by the optional scope and status and
orders by `updated_at` descending. -/
def list (rows : List MemoryItem) (scope : Option Scope) (status : Option Status) :
    List MemoryItem :=
  sortByUpdatedDesc (rows.filter (listPred scope status))

/-- Lines 316-327: `archive` runs `UPDATE memory_items SET status=?2 WHERE
id=?1` and fails with the not-found error when no row was affected. -/
def archive (rows : List MemoryItem) (id : String) (archived : Bool) :
    Except StoreErr (List MemoryItem) :=
  if rows.any (fun r => r.id = id) then
    .ok (rows.map fun r =>
      if r.id = id then
        { r with status := if archived then Status.Archived else Status.Active }
      else r)
  else .error .notFound

/-- Lines 329-346: `export` writes one record line per row, ordered by
`updated_at` descending (named `exportItems`: `export` is reserved in Lean). -/
def exportItems (rows : List MemoryItem) : List MemoryItem :=
  sortByUpdatedDesc rows

/-- Lines 348-390: `import` upserts each incoming record by id inside one
transaction (`ON CONFLICT(id) DO UPDATE` overwrites every column) and
returns the number of records processed. -/
def doImport (rows incoming : List MemoryItem) : List MemoryItem × Nat :=
  (incoming.foldl JsonlMemoryStore.upsertById rows, incoming.length)

/-- Lines 392-423: `stats` issues one `COUNT(*)` per bucket. -/
def stats (rows : List MemoryItem) : StatsResult :=
  { total := rows.length
    active := (rows.filter fun r => r.status = Status.Active).length
    archived := (rows.filter fun r => r.status = Status.Archived).length
    byGlobal := (rows.filter fun r => r.scope = Scope.Global).length
    byRepo := (rows.filter fun r => r.scope = Scope.Repo).length
    byDir := (rows.filter fun r => r.scope = Scope.Dir).length }

end SqliteMemoryStore

/-! ## Recall selection (memory/src/recall.rs)

Scoring (lines 27-69) uses `f32` and is not modelled; the greedy budgeted
selection loop (lines 70-85) operates only on the already rank-sorted list of
`(whitespace_token_count_of_content, item)` pairs, and is embedded here
exactly. -/

/-- Lines 80-81: the counter mutation applied to each accepted item before it
is persisted via `update` and pushed to the output. -/
def bumpCounters (now : String) (i : MemoryItem) : MemoryItem :=
  { i with counters :=
      { i.counters with
          used_count := i.counters.used_count + 1
          last_used_at := some now } }

/-- Lines 72-84: the selection loop.  `outLen` is `out.len()` and `used` is
`used_tokens`; both `if` branches are `break`, which ends the loop. -/
def recallSelectAux (itemCap tokenCap : Nat) (now : String) :
    List (Nat × MemoryItem) → Nat → Nat → List MemoryItem
  | [], _, _ => []
  | (t, item) :: rest, outLen, used =>
    if outLen ≥ itemCap then []
    else if used + t > tokenCap then []
    else bumpCounters now item :: recallSelectAux itemCap tokenCap now rest (outLen + 1) (used + t)

/-- The greedy budgeted selection over the rank-sorted scored list
(recall.rs lines 70-85): each scored entry pairs the whitespace token count
of the content with the item. -/
def recallSelect (scored : List (Nat × MemoryItem)) (itemCap tokenCap : Nat)
    (now : String) : List MemoryItem :=
  recallSelectAux itemCap tokenCap now scored 0 0

/-- Build the scored-entry shape for a rank-ordered item list: line 65
`item.content.split_whitespace().count()` paired with the item. -/
def rankedEntries (items : List MemoryItem) : List (Nat × MemoryItem) :=
  items.map fun i => (wsTokenCount i.content.data, i)

/-- Cumulative whitespace-token count of a scored-entry list. -/
def sumTok (l : List (Nat × MemoryItem)) : Nat :=
  (l.map Prod.fst).sum

/-! ## Backend factory (memory/src/factory.rs) -/

/-- Backend selector (factory.rs lines 8-13), with the `sqlite` feature
compiled in. -/
inductive Backend
  | Jsonl
  | Sqlite
deriving DecidableEq

/-- Lines 17-24: choose the backend from the value of the
`CODEX_MEMORY_BACKEND` environment variable (the empty string when unset:
`unwrap_or_default`).  Only the exact match arms `"sqlite" | "SQLITE"` select
SQLite; everything else falls through to JSONL. -/
def choose_backend_from_env (v : String) : Backend :=
  match v with
  | "sqlite" => Backend.Sqlite
  | "SQLITE" => Backend.Sqlite
  | _ => Backend.Jsonl

/-! ## Compaction (memory/src/migrate.rs, compact_jsonl)

The input is the sequence of lines of the source file (`BufRead::lines`,
newline stripped) and `parse` stands for
`serde_json::from_str::<MemoryItem>`. -/

/-- One loop iteration of `compact_jsonl` (migrate.rs lines 69-82).  State:
`(written lines, seen ids, read count, written count)`. -/
def compactLine (parse : String → Option MemoryItem)
    (st : List String × List String × Nat × Nat) (line : String) :
    List String × List String × Nat × Nat :=
  let (out, seen, read, written) := st
  let trimmed := trimS line
  if trimmed.data.isEmpty then st
  else
    match parse trimmed with
    | none => (out, seen, read + 1, written)
    | some item =>
      if item.id ∈ seen then (out, seen, read + 1, written)
      else (out ++ [trimmed], seen ++ [item.id], read + 1, written + 1)

/-- Lines 38-88: stream the input lines, skip blanks, keep the trimmed line
of the first occurrence of each id, and return the written lines together
with `(records_read_non_blank, records_written_unique)`. -/
def compact_jsonl (parse : String → Option MemoryItem) (lines : List String) :
    List String × Nat × Nat :=
  let st := lines.foldl (compactLine parse) ([], [], 0, 0)
  (st.1, st.2.2.1, st.2.2.2)

/-! ## Persisted line encoding (serde derives of memory/src/types.rs)

`JsonlMemoryStore::write_all`, `add`, and `export` persist each record as
`serde_json::to_string(&item)` on one line.  The derives in types.rs carry no
`rename` attribute, so a struct serializes as an object with the field names
in declaration order and a unit enum variant serializes as a JSON string
holding the Rust variant identifier verbatim. -/

/-- Left and right braces as strings. -/
def lbrace : String := String.singleton (Char.ofNat 123)

/-- Right brace as a string. -/
def rbrace : String := String.singleton (Char.ofNat 125)

/-- Hexadecimal digit for `serde_json` control-character escapes. -/
def hexDigitChar (n : Nat) : Char :=
  if n < 10 then Char.ofNat (48 + n) else Char.ofNat (87 + n)

/-- The escape `serde_json` applies to one character inside a JSON string:
quote and backslash are escaped, control characters below 0x20 use the short
forms or `\u00XX`, everything else is emitted verbatim. -/
def jsonEscapeChar (c : Char) : List Char :=
  if c = Char.ofNat 34 then [Char.ofNat 92, Char.ofNat 34]
  else if c = Char.ofNat 92 then [Char.ofNat 92, Char.ofNat 92]
  else if c.toNat ≥ 32 then [c]
  else match c.toNat with
    | 8 => [Char.ofNat 92, 'b']
    | 9 => [Char.ofNat 92, 't']
    | 10 => [Char.ofNat 92, 'n']
    | 12 => [Char.ofNat 92, 'f']
    | 13 => [Char.ofNat 92, 'r']
    | n => [Char.ofNat 92, 'u', '0', '0', hexDigitChar (n / 16), hexDigitChar (n % 16)]

/-- A JSON string literal as `serde_json` emits it. -/
def jsonString (s : String) : String :=
  ⟨Char.ofNat 34 :: (s.data.flatMap jsonEscapeChar) ++ [Char.ofNat 34]⟩

/-- A JSON array of strings. -/
def jsonStrArray (l : List String) : String :=
  "[" ++ String.intercalate "," (l.map jsonString) ++ "]"

/-- An optional JSON string (`Option<String>` serializes as the value or
`null`). -/
def jsonOptString : Option String → String
  | none => "null"
  | some s => jsonString s

/-- Serde name of a `Scope` variant: the Rust identifier, verbatim. -/
def scopeVariantName : Scope → String
  | Scope.Global => "Global"
  | Scope.Repo => "Repo"
  | Scope.Dir => "Dir"

/-- Serde name of a `Status` variant: the Rust identifier, verbatim. -/
def statusVariantName : Status → String
  | Status.Active => "Active"
  | Status.Archived => "Archived"

/-- Serde name of a `Kind` variant: the Rust identifier, verbatim. -/
def kindVariantName : Kind → String
  | Kind.Pref => "Pref"
  | Kind.Fact => "Fact"
  | Kind.Profile => "Profile"
  | Kind.Instruction => "Instruction"
  | Kind.Note => "Note"

/-- `serde_json` encoding of `RelevanceHints`. -/
def hintsJson (h : RelevanceHints) : String :=
  lbrace ++ "\"files\":" ++ jsonStrArray h.files ++
  ",\"crates\":" ++ jsonStrArray h.crates ++
  ",\"languages\":" ++ jsonStrArray h.languages ++
  ",\"commands\":" ++ jsonStrArray h.commands ++ rbrace

/-- `serde_json` encoding of `Counters`. -/
def countersJson (c : Counters) : String :=
  lbrace ++ "\"seen_count\":" ++ toString c.seen_count ++
  ",\"used_count\":" ++ toString c.used_count ++
  ",\"last_used_at\":" ++ jsonOptString c.last_used_at ++ rbrace

/-- `serde_json` encoding of `Option<Expiry>`. -/
def expiryJson : Option Expiry → String
  | none => "null"
  | some e =>
    lbrace ++ "\"ttl_secs\":" ++
      (match e.ttl_secs with | none => "null" | some n => toString n) ++
    ",\"review_after\":" ++ jsonOptString e.review_after ++ rbrace

/-- Everything of the persisted line that precedes the `scope` field. -/
def itemJsonPre (i : MemoryItem) : String :=
  lbrace ++ "\"id\":" ++ jsonString i.id ++
  ",\"created_at\":" ++ jsonString i.created_at ++
  ",\"updated_at\":" ++ jsonString i.updated_at ++
  ",\"schema_version\":" ++ toString i.schema_version ++
  ",\"source\":" ++ jsonString i.source ++ ","

/-- Everything of the persisted line that follows the `kind` field. -/
def itemJsonPost (i : MemoryItem) : String :=
  ",\"content\":" ++ jsonString i.content ++
  ",\"tags\":" ++ jsonStrArray i.tags ++
  ",\"relevance_hints\":" ++ hintsJson i.relevance_hints ++
  ",\"counters\":" ++ countersJson i.counters ++
  ",\"expiry\":" ++ expiryJson i.expiry ++ rbrace

/-- The one-line record `serde_json::to_string(&item)` that
`JsonlMemoryStore::write_all` (jsonl.rs lines 34-46), `add`, and `export`
persist: fields in declaration order, enum fields encoded through the
variant-name serializers above. -/
def itemJsonLine (i : MemoryItem) : String :=
  itemJsonPre i ++
  "\"scope\":\"" ++ scopeVariantName i.scope ++
  "\",\"status\":\"" ++ statusVariantName i.status ++
  "\",\"kind\":\"" ++ kindVariantName i.kind ++ "\"" ++
  itemJsonPost i

/-! ## The redactor (memory/src/redact.rs)

Each regex is embedded as a hand-rolled scanner.  In every pattern the
character classes of consecutive subpatterns are disjoint, so the greedy
quantifiers match exactly the maximal runs and the leftmost-first match of
the `regex` crate is reproduced by trying each start position from the left
and consuming maximal runs.  Spans are char offsets; every matched region is
ASCII, where char offsets and Rust byte offsets coincide. -/

/-- Class `[\s:=]` of the separator in the API-key pattern (line 29). -/
def isSepChar (c : Char) : Bool :=
  c.isWhitespace || c = ':' || c = '='

/-- Class `[A-Za-z0-9_\-]` of the API-key value (line 29). -/
def isValChar (c : Char) : Bool :=
  c.isAlphanum || c = '_' || c = '-'

/-- Class `[A-Za-z0-9+/=]` of the SSH-key body (line 37). -/
def isB64Char (c : Char) : Bool :=
  c.isAlphanum || c = '+' || c = '/' || c = '='

/-- Class `[A-Z ]` inside the PEM header and trailer (line 43). -/
def isHdrChar (c : Char) : Bool :=
  ('A' ≤ c && c ≤ 'Z') || c = ' '

/-- Class `[A-Za-z0-9+/=_-]` of the high-entropy pattern (line 50). -/
def isEntChar (c : Char) : Bool :=
  c.isAlphanum || c = '+' || c = '/' || c = '=' || c = '_' || c = '-'

/-- Case-sensitive literal prefix test. -/
def startsWithLit : List Char → List Char → Bool
  | [], _ => true
  | _ :: _, [] => false
  | l :: ls, c :: cs => c = l && startsWithLit ls cs

/-- ASCII case-insensitive literal prefix test (`(?i)`); the literal is given
lowercase. -/
def startsWithCI : List Char → List Char → Bool
  | [], _ => true
  | _ :: _, [] => false
  | l :: ls, c :: cs => c.toLower = l && startsWithCI ls cs

/-- Name alternation `(?i)(api[_-]?key|token|secret|password)` at the current
position, returning the matched length.  The alternatives are tried in
pattern order and the optional `[_-]` greedily; at any position at most one
alternative (and one option for the `?`) can reach the separator, so this
matches the leftmost-first semantics of the regex crate. -/
def apiNameLen (cs : List Char) : Option Nat :=
  if startsWithCI "api".data cs then
    match cs.drop 3 with
    | c :: rest =>
      if (c = '-' || c = '_') && startsWithCI "key".data rest then some 7
      else if startsWithCI "key".data (cs.drop 3) then some 6
      else none
    | [] => none
  else if startsWithCI "token".data cs then some 5
  else if startsWithCI "secret".data cs then some 6
  else if startsWithCI "password".data cs then some 8
  else none

/-- The API-key regex at one start position: name, then a nonempty maximal
`[\s:=]` run, then a maximal `[A-Za-z0-9_\-]` run of length ≥ 16 (the two
classes are disjoint, so greediness is exact).  Returns the relative
`(value_start, value_end)` of capture group 2; the whole match also ends at
`value_end`. -/
def apiMatchAt (cs : List Char) : Option (Nat × Nat) :=
  match apiNameLen cs with
  | none => none
  | some nl =>
    let sepLen := runLen isSepChar (cs.drop nl)
    if sepLen = 0 then none
    else
      let valLen := runLen isValChar (cs.drop (nl + sepLen))
      if valLen ≥ 16 then some (nl + sepLen, nl + sepLen + valLen) else none

/-- Fuel-based recursion for `apiScan` (each step consumes at least one
character, so fuel equal to the list length is enough; the fuel keeps the
recursion structural so the kernel can evaluate it). -/
def apiScanF : Nat → List Char → Nat → List (Nat × Nat)
  | 0, _, _ => []
  | _ + 1, [], _ => []
  | fuel + 1, c :: rest, pos =>
    match apiMatchAt (c :: rest) with
    | some (vs, ve) => (pos + vs, pos + ve) :: apiScanF fuel (rest.drop (ve - 1)) (pos + ve)
    | none => apiScanF fuel rest (pos + 1)

/-- `captures_iter` for the API-key regex (lines 28-34): leftmost matches,
scanning resumes at each match end; the recorded span is the value group. -/
def apiScan (cs : List Char) (pos : Nat) : List (Nat × Nat) :=
  apiScanF cs.length cs pos

/-- The SSH-key regex `ssh-(rsa|ed25519) [A-Za-z0-9+/=]{20,}` at one start
position, returning the match length. -/
def sshMatchAt (cs : List Char) : Option Nat :=
  if startsWithLit "ssh-".data cs then
    let hdr : Option Nat :=
      if startsWithLit "rsa ".data (cs.drop 4) then some 8
      else if startsWithLit "ed25519 ".data (cs.drop 4) then some 12
      else none
    match hdr with
    | none => none
    | some hl =>
      let bodyLen := runLen isB64Char (cs.drop hl)
      if bodyLen ≥ 20 then some (hl + bodyLen) else none
  else none

/-- Fuel-based recursion for `sshScan`. -/
def sshScanF : Nat → List Char → Nat → List (Nat × Nat)
  | 0, _, _ => []
  | _ + 1, [], _ => []
  | fuel + 1, c :: rest, pos =>
    match sshMatchAt (c :: rest) with
    | some len => (pos, pos + len) :: sshScanF fuel (rest.drop (len - 1)) (pos + len)
    | none => sshScanF fuel rest (pos + 1)

/-- `find_iter` for the SSH-key regex (lines 37-40): the full match is the
recorded span. -/
def sshScan (cs : List Char) (pos : Nat) : List (Nat × Nat) :=
  sshScanF cs.length cs pos

/-- Locate `PRIVATE KEY-----` at the end of a greedy `[A-Z ]*` run: the run
halts at the first `-`, so the literal can only start 11 characters before
the run end; trying `k` downward from the maximal run finds exactly the
largest (hence the greedy) choice. -/
def pemHdrK (cs : List Char) : Nat → Option Nat
  | 0 => if startsWithLit "PRIVATE KEY-----".data cs then some 0 else none
  | k + 1 =>
    if startsWithLit "PRIVATE KEY-----".data (cs.drop (k + 1)) then some (k + 1)
    else pemHdrK cs k

/-- The PEM trailer `-----END [A-Z ]*PRIVATE KEY-----` at one position,
returning its length. -/
def pemEndAt (cs : List Char) : Option Nat :=
  if startsWithLit "-----END ".data cs then
    match pemHdrK (cs.drop 9) (runLen isHdrChar (cs.drop 9)) with
    | some k => some (9 + k + 16)
    | none => none
  else none

/-- Lazy `[\s\S]+?` search: find the smallest offset (≥ the given start) at
which the PEM trailer matches, returning `(offset, trailer length)`. -/
def pemFindEnd : List Char → Nat → Option (Nat × Nat)
  | [], off =>
    match pemEndAt [] with
    | some elen => some (off, elen)
    | none => none
  | c :: rest, off =>
    match pemEndAt (c :: rest) with
    | some elen => some (off, elen)
    | none => pemFindEnd rest (off + 1)

/-- The PEM regex (line 43) at one start position, returning the match
length: `-----BEGIN `, greedy `[A-Z ]*` backtracked into `PRIVATE
KEY-----`, the shortest nonempty middle, then the trailer. -/
def pemMatchAt (cs : List Char) : Option Nat :=
  if startsWithLit "-----BEGIN ".data cs then
    match pemHdrK (cs.drop 11) (runLen isHdrChar (cs.drop 11)) with
    | none => none
    | some k =>
      let hb := 11 + k + 16
      match pemFindEnd (cs.drop (hb + 1)) (hb + 1) with
      | some (off, elen) => some (off + elen)
      | none => none
  else none

/-- Fuel-based recursion for `pemScan`. -/
def pemScanF : Nat → List Char → Nat → List (Nat × Nat)
  | 0, _, _ => []
  | _ + 1, [], _ => []
  | fuel + 1, c :: rest, pos =>
    match pemMatchAt (c :: rest) with
    | some len => (pos, pos + len) :: pemScanF fuel (rest.drop (len - 1)) (pos + len)
    | none => pemScanF fuel rest (pos + 1)

/-- `find_iter` for the PEM regex (lines 42-47): the full block is the
recorded span. -/
def pemScan (cs : List Char) (pos : Nat) : List (Nat × Nat) :=
  pemScanF cs.length cs pos

/-- Fuel-based recursion for `entRuns`. -/
def entRunsF : Nat → List Char → Nat → List (Nat × Nat)
  | 0, _, _ => []
  | _ + 1, [], _ => []
  | fuel + 1, c :: rest, pos =>
    if isEntChar c then
      let l := runLen isEntChar (c :: rest)
      (if l ≥ 20 then [(pos, pos + l)] else []) ++ entRunsF fuel (rest.drop (l - 1)) (pos + l)
    else entRunsF fuel rest (pos + 1)

/-- `find_iter` for `[A-Za-z0-9+/=_-]{20,}` (line 50): the maximal runs of
the class with length ≥ 20. -/
def entRuns (cs : List Char) (pos : Nat) : List (Nat × Nat) :=
  entRunsF cs.length cs pos

/-- Fuel-based recursion for `distinctChars`. -/
def distinctCharsF : Nat → List Char → List Char
  | 0, _ => []
  | _ + 1, [] => []
  | fuel + 1, c :: rest => c :: distinctCharsF fuel (rest.filter fun d => !(d = c : Bool))

/-- The distinct characters of a token, first occurrences kept. -/
def distinctChars (cs : List Char) : List Char :=
  distinctCharsF cs.length cs

/-- Exact embedding of `shannon_entropy(token) >= 4.5` (lines 96-111 and the
threshold at line 59).  With `n` the token length and `cᵢ` the count of each
distinct byte, the entropy is `log2 n - (1/n) Σ cᵢ log2 cᵢ`, so the
comparison `≥ 4.5` is equivalent over the naturals to
`n ^ (2n) ≥ 2 ^ (9n) * Π cᵢ ^ (2cᵢ)` (multiply by `2n` and exponentiate);
every matched token is ASCII, so bytes and chars coincide. -/
def entropyGe45 (token : List Char) : Bool :=
  let n := token.length
  let p := ((distinctChars token).map fun c => (token.count c) ^ (2 * token.count c)).prod
  n ^ (2 * n) ≥ 2 ^ (9 * n) * p

/-- The issue list and recorded spans accumulated by `redact_candidate`
(lines 11-12); `push_span` pushes to both in lockstep. -/
structure Found where
  spans : List (Nat × Nat)
  issues : List String
deriving DecidableEq

/-- Lines 14-25: record a span and its issue unless the span is contained in
an already-recorded span. -/
def pushSpan (st : Found) (range : Nat × Nat) (issue : String) : Found :=
  if st.spans.any (fun q => range.1 ≥ q.1 && range.2 ≤ q.2) then st
  else { spans := st.spans ++ [range], issues := st.issues ++ [issue] }

/-- Lines 49-62: the high-entropy pass.  A candidate run that overlaps any
span recorded so far is skipped whole (before the entropy test). -/
def entropyPass (cs : List Char) (st : Found) : Found :=
  (entRuns cs 0).foldl
    (fun st sp =>
      if st.spans.any (fun q => sp.1 < q.2 && sp.2 > q.1) then st
      else if entropyGe45 ((cs.drop sp.1).take (sp.2 - sp.1)) then
        pushSpan st sp "high-entropy string"
      else st)
    st

/-- The four detection passes of `redact_candidate` in order. -/
def runPasses (cs : List Char) : Found :=
  let st0 : Found := ⟨[], []⟩
  let st1 := (apiScan cs 0).foldl (fun st sp => pushSpan st sp "possible API key") st0
  let st2 := (sshScan cs 0).foldl (fun st sp => pushSpan st sp "possible SSH key") st1
  let st3 := (pemScan cs 0).foldl (fun st sp => pushSpan st sp "possible private key") st2
  entropyPass cs st3

/-- Lines 64-72: fold sorted spans, merging adjacent or overlapping ones. -/
def mergeFrom : Nat × Nat → List (Nat × Nat) → List (Nat × Nat)
  | (s, e), [] => [(s, e)]
  | (s, e), (s2, e2) :: rest =>
    if s2 ≤ e then mergeFrom (s, max e e2) rest
    else (s, e) :: mergeFrom (s2, e2) rest

/-- Sort spans by start (`sort_by_key(|r| r.0)`) and merge. -/
def mergeSpans (spans : List (Nat × Nat)) : List (Nat × Nat) :=
  match List.insertionSort (fun a b : Nat × Nat => a.1 ≤ b.1) spans with
  | [] => []
  | sp :: rest => mergeFrom sp rest

/-- Lines 74-86: rebuild the string, replacing each merged span with the
sentinel `[REDACTED]`. -/
def buildMasked (cs : List Char) : Nat → List (Nat × Nat) → List Char
  | last, [] => cs.drop last
  | last, (s, e) :: rest =>
    (if last < s then (cs.drop last).take (s - last) else []) ++
    "[REDACTED]".data ++ buildMasked cs e rest

/-- The redaction result (redact.rs lines 1-5). -/
structure Redaction where
  masked : String
  issues : List String
  blocked : Bool
deriving DecidableEq

/-- Lines 7-94: `redact_candidate`. -/
def redact_candidate (s : String) : Redaction :=
  let st := runPasses s.data
  { masked := ⟨buildMasked s.data 0 (mergeSpans st.spans)⟩
    issues := st.issues
    blocked := !st.issues.isEmpty }

/-! ## Concrete sample data used by witnesses and counterexamples -/

/-- A small item builder for concrete instances. -/
def sampleItem (id upd content : String) (scope : Scope) (status : Status) : MemoryItem :=
  { id := id
    created_at := "2024-01-01T00:00:00Z"
    updated_at := upd
    schema_version := 1
    source := "test"
    scope := scope
    status := status
    kind := Kind.Note
    content := content
    tags := []
    relevance_hints := { files := [], crates := [], languages := [], commands := [] }
    counters := { seen_count := 0, used_count := 0, last_used_at := none }
    expiry := none }

/-- Sample: id `a`, the older timestamp. -/
def sampleA : MemoryItem := sampleItem "a" "2024-01-01T00:00:00Z" "alpha one" Scope.Repo Status.Active

/-- Sample: id `a` again, newer timestamp and different content. -/
def sampleA2 : MemoryItem := sampleItem "a" "2024-01-02T00:00:00Z" "alpha two" Scope.Repo Status.Active

/-- Sample: id `b`, newer timestamp, different scope and status. -/
def sampleB : MemoryItem := sampleItem "b" "2024-01-02T00:00:00Z" "beta" Scope.Global Status.Archived

/-! ## Claims -/

/-- Claim C9, counterexample: the factory is not case-insensitive.  The value
`SQLite` (and `Sqlite`) of the backend environment variable selects the JSONL
backend, not the SQLite backend the claim promises. -/
theorem c9_backend_env_counterexample :
    choose_backend_from_env "SQLite" = Backend.Jsonl ∧
    choose_backend_from_env "Sqlite" = Backend.Jsonl ∧
    choose_backend_from_env "SQLite" ≠ Backend.Sqlite := by
  exact ⟨rfl, rfl, by decide⟩

/-- Claim C9 (amended): with no explicit backend, the factory consults the
backend environment variable and selects SQLite exactly for the two spellings
`sqlite` and `SQLITE`; every other value — including other case variants and
`jsonl` in any case — and the unset (empty) value select the JSONL backend. -/
theorem c9_backend_env_exact :
    ∀ v : String,
      (choose_backend_from_env v = Backend.Sqlite ↔ v = "sqlite" ∨ v = "SQLITE") ∧
      (choose_backend_from_env v = Backend.Jsonl ↔ ¬(v = "sqlite" ∨ v = "SQLITE")) := by
  intro v
  unfold choose_backend_from_env
  constructor
  · constructor
    · intro h
      split at h
      next => left; rfl
      next => right; rfl
      next => exact absurd h (by decide)
    · rintro (h | h) <;> subst h <;> rfl
  · constructor
    · intro h
      rintro (h1 | h1) <;> subst h1 <;> exact absurd h (by decide)
    · intro h
      split
      next => exact absurd (Or.inl rfl) h
      next => exact absurd (Or.inr rfl) h
      next => rfl

/-- Claim C10 (confirmed): when the JSONL file does not exist, `read_all`
returns `Ok` with the empty item list, and on that empty list `get` is
`none` for every id, `list` is empty for every filter combination, and
`stats` reports every count as zero. -/
theorem c10_missing_file_empty_store :
    ∀ (parse : String → Option MemoryItem) (id : String)
      (sc : Option Scope) (st : Option Status),
      JsonlMemoryStore.read_all none parse = Except.ok [] ∧
      JsonlMemoryStore.get [] id = none ∧
      JsonlMemoryStore.list [] sc st = [] ∧
      JsonlMemoryStore.stats [] =
        { total := 0, active := 0, archived := 0, byGlobal := 0, byRepo := 0, byDir := 0 } := by
  intro parse id sc st
  refine ⟨rfl, rfl, ?_, rfl⟩
  cases sc <;> cases st <;> rfl

/-- Claim C5, counterexample: after two `add` appends with the same id, the
JSONL `get` returns the FIRST appended record (`find` takes the first parsed
match), not the newest one the claim promises. -/
theorem c5_get_counterexample :
    JsonlMemoryStore.get (JsonlMemoryStore.add (JsonlMemoryStore.add [] sampleA) sampleA2) "a" =
      some sampleA ∧ sampleA ≠ sampleA2 := by
  exact ⟨rfl, by decide⟩

/-- Claim C5 (amended): in the file backend `get` is deterministic but
first-writer-wins: whatever duplicates of an id were appended later, `get`
returns the earliest record carrying that id. -/
theorem c5_get_first_writer_wins (pre post : List MemoryItem) (x : MemoryItem)
    (h : ∀ y ∈ pre, y.id ≠ x.id) :
    JsonlMemoryStore.get (pre ++ x :: post) x.id = some x := by
  induction pre with
  | nil => simp [JsonlMemoryStore.get]
  | cons y ys ih =>
    have hy : y.id ≠ x.id := h y (List.mem_cons_self y ys)
    have ih2 := ih fun z hz => h z (List.mem_cons_of_mem y hz)
    simp only [List.cons_append, JsonlMemoryStore.get, List.find?_cons] at ih2 ⊢
    rw [decide_eq_false hy]
    exact ih2

/-- Witness for C5: a concrete store where a non-matching record precedes the
first `a` record and a duplicate of `a` follows it. -/
theorem c5_get_first_writer_wins_witness :
    (∀ y ∈ [sampleB], y.id ≠ sampleA.id) ∧
    JsonlMemoryStore.get ([sampleB] ++ sampleA :: [sampleA2]) sampleA.id = some sampleA :=
  ⟨by decide, c5_get_first_writer_wins [sampleB] [sampleA2] sampleA (by decide)⟩

/-- Claim C4, counterexample: in the file backend, `update` and `archive`
with an id that is not present return `Ok` (silent no-ops), not the
not-found error the claim promises for both backends. -/
theorem c4_jsonl_no_not_found_counterexample :
    JsonlMemoryStore.get [] sampleA.id = none ∧
    JsonlMemoryStore.update [] sampleA = Except.ok [] ∧
    JsonlMemoryStore.archive [] sampleA.id true = Except.ok [] := by
  exact ⟨rfl, rfl, rfl⟩

/-- Claim C4 (amended): the relational backend fails `update` and `archive`
with the not-found error exactly when no row carries the id, and succeeds
when one does; the file backend never reports not-found — its `update` and
`archive` always return `Ok`, silently rewriting the file unchanged when the
id is absent. -/
theorem c4_update_archive_not_found :
    ∀ (rows : List MemoryItem) (item : MemoryItem) (id : String) (b : Bool),
      (SqliteMemoryStore.update rows item = Except.error StoreErr.notFound ↔
        ¬∃ r ∈ rows, r.id = item.id) ∧
      ((∃ r ∈ rows, r.id = item.id) →
        ∃ rows2, SqliteMemoryStore.update rows item = Except.ok rows2) ∧
      (SqliteMemoryStore.archive rows id b = Except.error StoreErr.notFound ↔
        ¬∃ r ∈ rows, r.id = id) ∧
      ((∃ r ∈ rows, r.id = id) →
        ∃ rows2, SqliteMemoryStore.archive rows id b = Except.ok rows2) ∧
      (∃ l, JsonlMemoryStore.update rows item = Except.ok l) ∧
      (∃ l, JsonlMemoryStore.archive rows id b = Except.ok l) := by
  intro rows item id b
  have hu : (rows.any fun r => r.id = item.id) = true ↔ ∃ r ∈ rows, r.id = item.id := by
    simp [List.any_eq_true]
  have ha : (rows.any fun r => r.id = id) = true ↔ ∃ r ∈ rows, r.id = id := by
    simp [List.any_eq_true]
  refine ⟨?_, ?_, ?_, ?_, ⟨_, rfl⟩, ⟨_, rfl⟩⟩
  · unfold SqliteMemoryStore.update
    constructor
    · intro h
      by_cases hc : (rows.any fun r => r.id = item.id) = true
      · rw [if_pos hc] at h; exact absurd h (by simp)
      · exact fun hex => hc (hu.mpr hex)
    · intro h
      rw [if_neg (fun hc => h (hu.mp hc))]
  · intro h
    unfold SqliteMemoryStore.update
    rw [if_pos (hu.mpr h)]
    exact ⟨_, rfl⟩
  · unfold SqliteMemoryStore.archive
    constructor
    · intro h
      by_cases hc : (rows.any fun r => r.id = id) = true
      · rw [if_pos hc] at h; exact absurd h (by simp)
      · exact fun hex => hc (ha.mpr hex)
    · intro h
      rw [if_neg (fun hc => h (ha.mp hc))]
  · intro h
    unfold SqliteMemoryStore.archive
    rw [if_pos (ha.mpr h)]
    exact ⟨_, rfl⟩

theorem sumTok_nil : sumTok [] = 0 := rfl

theorem sumTok_cons (t : Nat) (i : MemoryItem) (l : List (Nat × MemoryItem)) :
    sumTok ((t, i) :: l) = t + sumTok l := by
  simp [sumTok]

/-- Behaviour of the selection loop from any intermediate loop state: the
loop output is a bumped prefix of the remaining entries, bounded by the two
caps, and it stops exactly at the item cap or at the first entry that would
exceed the token cap. -/
theorem recallSelectAux_spec (ic tc : Nat) (now : String) :
    ∀ (l : List (Nat × MemoryItem)) (outLen used : Nat),
      ∃ n, n ≤ l.length ∧
        recallSelectAux ic tc now l outLen used =
          (l.take n).map (fun p => bumpCounters now p.2) ∧
        (n = 0 ∨ outLen + n ≤ ic) ∧
        (n = 0 ∨ used + sumTok (l.take n) ≤ tc) ∧
        (∀ p, l.get? n = some p →
          outLen + n ≥ ic ∨ used + sumTok (l.take n) + p.1 > tc) := by
  intro l
  induction l with
  | nil =>
    intro outLen used
    exact ⟨0, Nat.le_refl _, rfl, Or.inl rfl, Or.inl rfl, by intro p hp; cases hp⟩
  | cons hd rest ih =>
    intro outLen used
    obtain ⟨t, item⟩ := hd
    by_cases h1 : outLen ≥ ic
    · refine ⟨0, Nat.zero_le _, ?_, Or.inl rfl, Or.inl rfl, ?_⟩
      · simp [recallSelectAux, if_pos h1]
      · intro p _
        exact Or.inl (by omega)
    · by_cases h2 : used + t > tc
      · refine ⟨0, Nat.zero_le _, ?_, Or.inl rfl, Or.inl rfl, ?_⟩
        · simp [recallSelectAux, if_neg h1, if_pos h2]
        · intro p hp
          right
          simp only [List.get?] at hp
          cases hp
          simpa [sumTok_nil] using h2
      · obtain ⟨n, hlen, heq, hic, htc, hstop⟩ := ih (outLen + 1) (used + t)
        refine ⟨n + 1, by simpa using Nat.succ_le_succ hlen, ?_, ?_, ?_, ?_⟩
        · simp only [recallSelectAux, if_neg h1, if_neg h2, heq, List.take_succ_cons,
            List.map_cons]
        · right
          rcases hic with h | h
          · omega
          · omega
        · right
          rw [List.take_succ_cons, sumTok_cons]
          rcases htc with h | h
          · subst h
            simp only [List.take_zero, sumTok_nil]
            omega
          · omega
        · intro p hp
          have := hstop p (by simpa using hp)
          rw [List.take_succ_cons, sumTok_cons]
          rcases this with h | h
          · exact Or.inl (by omega)
          · exact Or.inr (by omega)

/-- Claim C3, counterexample: with ranked whitespace-token counts
`[10, 5, 1]`, `item_cap = 10` and `token_cap = 12`, the loop accepts the
first item and then terminates at the second (10 + 5 > 12): the third item
is never considered although it fits the remaining budget (10 + 1 ≤ 12),
fewer than `item_cap` items were accepted, and the ranked list was not
exhausted — the claim promised the over-budget item would be skipped and
iteration would continue. -/
theorem c3_token_break_counterexample :
    (recallSelect
        (rankedEntries
          [sampleItem "1" "2024-01-03T00:00:00Z" "a a a a a a a a a a" Scope.Repo Status.Active,
           sampleItem "2" "2024-01-02T00:00:00Z" "b b b b b" Scope.Repo Status.Active,
           sampleItem "3" "2024-01-01T00:00:00Z" "c" Scope.Repo Status.Active])
        10 12 "2024-01-10T00:00:00Z").map (fun i => i.id) = ["1"] ∧
    (10 : Nat) + 1 ≤ 12 ∧
    (3 : Nat) < 10 := by
  exact ⟨by decide, by decide, by decide⟩

/-- Claim C3 (amended): the greedy selection returns a bumped PREFIX of the
ranked list — an entry that would exceed `token_cap` terminates the loop
rather than being skipped — bounded by `item_cap` and `token_cap`, and the
loop stops exactly when `item_cap` entries are accepted, when the next entry
would exceed `token_cap`, or when the list is exhausted. -/
theorem c3_greedy_selection_prefix :
    ∀ (scored : List (Nat × MemoryItem)) (itemCap tokenCap : Nat) (now : String),
      ∃ n, n ≤ scored.length ∧
        recallSelect scored itemCap tokenCap now =
          (scored.take n).map (fun p => bumpCounters now p.2) ∧
        n ≤ itemCap ∧
        sumTok (scored.take n) ≤ tokenCap ∧
        (∀ p, scored.get? n = some p →
          n = itemCap ∨ sumTok (scored.take n) + p.1 > tokenCap) := by
  intro scored itemCap tokenCap now
  obtain ⟨n, hlen, heq, hic, htc, hstop⟩ :=
    recallSelectAux_spec itemCap tokenCap now scored 0 0
  refine ⟨n, hlen, heq, ?_, ?_, ?_⟩
  · rcases hic with h | h
    · omega
    · omega
  · rcases htc with h | h
    · subst h; simp [sumTok_nil]
    · omega
  · intro p hp
    have h2 : n ≤ itemCap := by
      rcases hic with h | h
      · omega
      · omega
    rcases hstop p hp with h | h
    · exact Or.inl (by omega)
    · exact Or.inr (by omega)

/-- The JSONL `list` (two sequential `retain` calls) computes the same
filter as the SQL `WHERE` clause of the relational `list`, in file order. -/
theorem jsonl_list_eq_filter (items : List MemoryItem) (sc : Option Scope) (st : Option Status) :
    JsonlMemoryStore.list items sc st = items.filter (SqliteMemoryStore.listPred sc st) := by
  unfold JsonlMemoryStore.list SqliteMemoryStore.listPred
  cases sc <;> cases st <;> simp [List.filter_filter, Bool.and_comm]

/-- Claim C2, counterexample: a JSONL store holding an older record before a
newer one.  `list(None, None)` returns the records in file order, which is
not ordered by `updated_at` descending as the claim promises for both
backends. -/
theorem c2_jsonl_list_unsorted_counterexample :
    JsonlMemoryStore.list [sampleA, sampleB] none none = [sampleA, sampleB] ∧
    ¬sortedByUpdatedDesc [sampleA, sampleB] ∧
    sortedByUpdatedDesc (SqliteMemoryStore.list [sampleA, sampleB] none none) := by
  refine ⟨rfl, by decide, by decide⟩

/-- Claim C2 (amended): for every store state and filter combination, both
backends return exactly the items matching both optional filters; the
relational backend orders them by `updated_at` descending, while the file
backend returns them in file order without reordering. -/
theorem c2_list_filters :
    ∀ (items : List MemoryItem) (sc : Option Scope) (st : Option Status),
      JsonlMemoryStore.list items sc st =
        items.filter (SqliteMemoryStore.listPred sc st) ∧
      (SqliteMemoryStore.list items sc st).Perm
        (items.filter (SqliteMemoryStore.listPred sc st)) ∧
      sortedByUpdatedDesc (SqliteMemoryStore.list items sc st) := by
  intro items sc st
  refine ⟨jsonl_list_eq_filter items sc st, ?_, ?_⟩
  · exact sortByUpdatedDesc_perm _
  · exact sortByUpdatedDesc_sorted _

/-- Folding the id-keyed upsert over records whose ids are all fresh and
pairwise distinct appends them in order. -/
theorem foldl_upsert_fresh :
    ∀ (incoming acc : List MemoryItem),
      (((acc ++ incoming).map (fun i => i.id)).Nodup) →
      incoming.foldl JsonlMemoryStore.upsertById acc = acc ++ incoming := by
  intro incoming
  induction incoming with
  | nil => intro acc _; simp
  | cons x xs ih =>
    intro acc hnd
    have hx : x.id ∉ acc.map (fun i => i.id) := by
      rw [List.map_append] at hnd
      rcases List.nodup_append.mp hnd with ⟨_, _, hdisj⟩
      intro hmem
      exact hdisj hmem (by simp)
    have hany : (acc.any fun i => i.id = x.id) = false := by
      rw [List.any_eq_false]
      intro i hi
      simp only [decide_eq_true_eq]
      intro hbad
      exact hx (hbad ▸ List.mem_map_of_mem (fun i => i.id) hi)
    have hstep : JsonlMemoryStore.upsertById acc x = acc ++ [x] := by
      unfold JsonlMemoryStore.upsertById
      rw [hany]
      simp
    calc (x :: xs).foldl JsonlMemoryStore.upsertById acc
        = xs.foldl JsonlMemoryStore.upsertById (acc ++ [x]) := by
          simp [List.foldl_cons, hstep]
      _ = (acc ++ [x]) ++ xs := by
          apply ih
          simpa using hnd
      _ = acc ++ x :: xs := by simp

/-- On stores with pairwise distinct ids, `find?` by id returns the same
record across any permutation. -/
theorem get_eq_of_perm_nodup {l1 l2 : List MemoryItem} (hp : l1.Perm l2)
    (hnd : (l1.map (fun i => i.id)).Nodup) (id : String) :
    JsonlMemoryStore.get l1 id = JsonlMemoryStore.get l2 id := by
  unfold JsonlMemoryStore.get
  cases h1 : l1.find? (fun i => i.id = id) with
  | none =>
    cases h2 : l2.find? (fun i => i.id = id) with
    | none => rfl
    | some y =>
      have hy := List.find?_some h2
      have hmem : y ∈ l1 := hp.symm.subset (List.mem_of_find?_eq_some h2)
      have := List.find?_eq_none.mp h1 y hmem
      exact absurd hy this
  | some x =>
    have hx := List.find?_some h1
    have hxm : x ∈ l2 := hp.subset (List.mem_of_find?_eq_some h1)
    cases h2 : l2.find? (fun i => i.id = id) with
    | none =>
      have := List.find?_eq_none.mp h2 x hxm
      exact absurd hx this
    | some y =>
      have hy := List.find?_some h2
      have hym : y ∈ l1 := hp.symm.subset (List.mem_of_find?_eq_some h2)
      have hxid : x.id = id := by simpa using hx
      have hyid : y.id = id := by simpa using hy
      have : x = y :=
        List.inj_on_of_nodup_map hnd (List.mem_of_find?_eq_some h1) hym
          (hxid.trans hyid.symm)
      rw [this]

/-- `stats` is determined by the multiset of records. -/
theorem stats_eq_of_perm {l1 l2 : List MemoryItem} (hp : l1.Perm l2) :
    JsonlMemoryStore.stats l1 = JsonlMemoryStore.stats l2 := by
  unfold JsonlMemoryStore.stats
  have hl := hp.length_eq
  have h1 := (hp.filter fun i => i.status = Status.Active).length_eq
  have h2 := (hp.filter fun i => i.status = Status.Archived).length_eq
  have h3 := (hp.filter fun i => i.scope = Scope.Global).length_eq
  have h4 := (hp.filter fun i => i.scope = Scope.Repo).length_eq
  have h5 := (hp.filter fun i => i.scope = Scope.Dir).length_eq
  simp only [hl, h1, h2, h3, h4, h5]

theorem sqlite_get_eq_jsonl (l : List MemoryItem) (id : String) :
    SqliteMemoryStore.get l id = JsonlMemoryStore.get l id := rfl

theorem sqlite_stats_eq_jsonl (l : List MemoryItem) :
    SqliteMemoryStore.stats l = JsonlMemoryStore.stats l := rfl

/-- Claim C1, counterexample.  First conjunct: importing the export of the
two-record JSONL store `[a older, b newer]` into an empty store re-sorts the
file, so `list` on the result disagrees with `list` on the source (which is
in file order).  Remaining conjuncts: with duplicate ids in the file
`[a-newer, a-older]`, the import keeps the LAST record of the export stream —
the one with the OLDER `updated_at` — not the latest record per id promised
by the claim. -/
theorem c1_roundtrip_counterexample :
    JsonlMemoryStore.list
        (JsonlMemoryStore.doImport [] (JsonlMemoryStore.exportItems [sampleA, sampleB])).1
        none none ≠
      JsonlMemoryStore.list [sampleA, sampleB] none none ∧
    JsonlMemoryStore.get
        (JsonlMemoryStore.doImport [] (JsonlMemoryStore.exportItems [sampleA2, sampleA])).1
        "a" = some sampleA ∧
    lexLeChars sampleA2.updated_at.data sampleA.updated_at.data = false := by
  refine ⟨by decide, by decide, rfl⟩

/-- Claim C1 (amended): for store content with pairwise distinct ids (which
the relational backend always guarantees), importing the output of export
into an empty store yields a store with exactly the same records keyed by
id: `get` and `stats` agree with the source in both backends, and `list`
returns the same matching items ordered by `updated_at` descending — in the
file backend this can be a reordering of the source's file-order `list`.  On
duplicate ids in the file backend, the last record of the export stream
wins, not the latest by `updated_at`. -/
theorem c1_roundtrip_distinct_ids (S : List MemoryItem)
    (h : (S.map (fun i => i.id)).Nodup) :
    (∀ id, JsonlMemoryStore.get
        (JsonlMemoryStore.doImport [] (JsonlMemoryStore.exportItems S)).1 id =
      JsonlMemoryStore.get S id) ∧
    JsonlMemoryStore.stats
        (JsonlMemoryStore.doImport [] (JsonlMemoryStore.exportItems S)).1 =
      JsonlMemoryStore.stats S ∧
    (∀ sc st,
      (JsonlMemoryStore.list
          (JsonlMemoryStore.doImport [] (JsonlMemoryStore.exportItems S)).1 sc st).Perm
        (JsonlMemoryStore.list S sc st) ∧
      sortedByUpdatedDesc
        (JsonlMemoryStore.list
          (JsonlMemoryStore.doImport [] (JsonlMemoryStore.exportItems S)).1 sc st)) ∧
    (∀ id, SqliteMemoryStore.get
        (SqliteMemoryStore.doImport [] (SqliteMemoryStore.exportItems S)).1 id =
      SqliteMemoryStore.get S id) ∧
    SqliteMemoryStore.stats
        (SqliteMemoryStore.doImport [] (SqliteMemoryStore.exportItems S)).1 =
      SqliteMemoryStore.stats S ∧
    (∀ sc st,
      (SqliteMemoryStore.list
          (SqliteMemoryStore.doImport [] (SqliteMemoryStore.exportItems S)).1 sc st).Perm
        (SqliteMemoryStore.list S sc st) ∧
      sortedByUpdatedDesc
        (SqliteMemoryStore.list
          (SqliteMemoryStore.doImport [] (SqliteMemoryStore.exportItems S)).1 sc st)) := by
  have hperm : (sortByUpdatedDesc S).Perm S := sortByUpdatedDesc_perm S
  have hndR : ((sortByUpdatedDesc S).map (fun i => i.id)).Nodup :=
    ((hperm.map (fun i => i.id)).symm).nodup h
  have hR : (JsonlMemoryStore.doImport [] (JsonlMemoryStore.exportItems S)).1 =
      sortByUpdatedDesc S := by
    unfold JsonlMemoryStore.doImport JsonlMemoryStore.exportItems
    rw [foldl_upsert_fresh S [] (by simpa using h)]
    simp
  have hR2 : (SqliteMemoryStore.doImport [] (SqliteMemoryStore.exportItems S)).1 =
      sortByUpdatedDesc S := by
    unfold SqliteMemoryStore.doImport SqliteMemoryStore.exportItems
    rw [foldl_upsert_fresh (sortByUpdatedDesc S) [] (by simpa using hndR)]
    simp
  have hRperm : ((sortByUpdatedDesc S).map (fun i => i.id)).Nodup := hndR
  refine ⟨?_, ?_, ?_, ?_, ?_, ?_⟩
  · intro id
    rw [hR]
    exact get_eq_of_perm_nodup hperm hndR id
  · rw [hR]
    exact stats_eq_of_perm hperm
  · intro sc st
    rw [hR, jsonl_list_eq_filter, jsonl_list_eq_filter]
    constructor
    · exact hperm.filter _
    · exact List.Pairwise.filter _ (sortByUpdatedDesc_sorted S)
  · intro id
    rw [hR2, sqlite_get_eq_jsonl, sqlite_get_eq_jsonl]
    exact get_eq_of_perm_nodup hperm hndR id
  · rw [hR2, sqlite_stats_eq_jsonl, sqlite_stats_eq_jsonl]
    exact stats_eq_of_perm hperm
  · intro sc st
    rw [hR2]
    unfold SqliteMemoryStore.list
    constructor
    · exact (sortByUpdatedDesc_perm _).trans
        ((hperm.filter _).trans (sortByUpdatedDesc_perm _).symm)
    · exact sortByUpdatedDesc_sorted _

/-- Witness for C1 at the concrete duplicate-free store `[a, b]`. -/
theorem c1_roundtrip_distinct_ids_witness :
    (([sampleA, sampleB].map (fun i => i.id)).Nodup) ∧
    (∀ id, JsonlMemoryStore.get
        (JsonlMemoryStore.doImport []
          (JsonlMemoryStore.exportItems [sampleA, sampleB])).1 id =
      JsonlMemoryStore.get [sampleA, sampleB] id) :=
  ⟨by decide, (c1_roundtrip_distinct_ids [sampleA, sampleB] (by decide)).1⟩

/-- Claim C7, counterexample: the derives in types.rs carry no rename
attribute, so the persisted line of a concrete record encodes the enum
fields as the capitalized Rust variant identifiers `Repo`, `Active`, `Note`,
not the lowercase names the claim promises. -/
theorem c7_lowercase_counterexample :
    itemJsonLine sampleA =
      itemJsonPre sampleA ++
        "\"scope\":\"Repo\",\"status\":\"Active\",\"kind\":\"Note\"" ++
        itemJsonPost sampleA ∧
    scopeVariantName Scope.Repo ≠ "repo" ∧
    statusVariantName Status.Active ≠ "active" ∧
    kindVariantName Kind.Note ≠ "note" := by
  refine ⟨by decide, by decide, by decide, by decide⟩

/-- Claim C7 (amended): in the persisted line encoding of the file backend
the enumerated fields serialize as their capitalized Rust variant names
(scope `Repo` as `"Repo"`, status `Active` as `"Active"`, kind `Note` as
`"Note"`); the lowercase names appear only in the relational backend's
columns, via `scope_as_str`, `status_as_str` and `kind_as_str`. -/
theorem c7_enum_serialization :
    ∀ i : MemoryItem,
      itemJsonLine i =
        itemJsonPre i ++ "\"scope\":\"" ++ scopeVariantName i.scope ++
          "\",\"status\":\"" ++ statusVariantName i.status ++
          "\",\"kind\":\"" ++ kindVariantName i.kind ++ "\"" ++ itemJsonPost i ∧
      scopeVariantName i.scope ∈ ["Global", "Repo", "Dir"] ∧
      statusVariantName i.status ∈ ["Active", "Archived"] ∧
      kindVariantName i.kind ∈ ["Pref", "Fact", "Profile", "Instruction", "Note"] ∧
      SqliteMemoryStore.scope_as_str i.scope ∈ ["global", "repo", "dir"] ∧
      SqliteMemoryStore.status_as_str i.status ∈ ["active", "archived"] ∧
      SqliteMemoryStore.kind_as_str i.kind ∈
        ["pref", "fact", "profile", "instruction", "note"] := by
  intro i
  refine ⟨rfl, ?_, ?_, ?_, ?_, ?_, ?_⟩
  · cases i.scope <;> simp [scopeVariantName]
  · cases i.status <;> simp [statusVariantName]
  · cases i.kind <;> simp [kindVariantName]
  · cases i.scope <;> simp [SqliteMemoryStore.scope_as_str]
  · cases i.status <;> simp [SqliteMemoryStore.status_as_str]
  · cases i.kind <;> simp [SqliteMemoryStore.kind_as_str]

/-- The record a compaction input line yields: `None` for a blank or
unparseable line, the parsed item otherwise. -/
def lineRecord (parse : String → Option MemoryItem) (l : String) : Option MemoryItem :=
  if (trimS l).data.isEmpty then none else parse (trimS l)

/-- The ids of the parseable non-blank lines, in order, duplicates kept. -/
def parsedIds (parse : String → Option MemoryItem) (lines : List String) : List String :=
  lines.filterMap fun l => (lineRecord parse l).map (fun i => i.id)

/-- First-occurrence deduplication of a list of ids. -/
def firstDedup : List String → List String
  | [] => []
  | x :: xs => x :: firstDedup (xs.filter fun d => !(d = x : Bool))
termination_by l => l.length
decreasing_by
  simp only [List.length_cons]
  exact Nat.lt_succ_of_le (List.length_filter_le _ _)

/-- The trimmed text of the first line of the file that parses to the given
id. -/
def firstLineFor (parse : String → Option MemoryItem) (lines : List String)
    (id : String) : Option String :=
  (lines.find? fun l => ((lineRecord parse l).map (fun i => i.id)) = some id).map trimS

/-- The specification-level description of the compaction output: one line
per distinct id of the parseable input lines — the trimmed first occurrence
of that id. -/
def specCompactOut (parse : String → Option MemoryItem) (lines : List String) :
    List String :=
  (firstDedup (parsedIds parse lines)).filterMap (firstLineFor parse lines)

/-- The lines `compact_jsonl` keeps, by direct recursion on the input with
the seen-set threaded through. -/
def keptLines (parse : String → Option MemoryItem) (seen : List String) :
    List String → List String
  | [] => []
  | l :: ls =>
    match lineRecord parse l with
    | none => keptLines parse seen ls
    | some item =>
      if item.id ∈ seen then keptLines parse seen ls
      else trimS l :: keptLines parse (seen ++ [item.id]) ls

/-- The ids `compact_jsonl` adds to the seen set, in order. -/
def keptIds (parse : String → Option MemoryItem) (seen : List String) :
    List String → List String
  | [] => []
  | l :: ls =>
    match lineRecord parse l with
    | none => keptIds parse seen ls
    | some item =>
      if item.id ∈ seen then keptIds parse seen ls
      else item.id :: keptIds parse (seen ++ [item.id]) ls

theorem mem_firstDedup {x : String} : ∀ {l : List String}, x ∈ firstDedup l → x ∈ l := by
  intro l
  induction l using firstDedup.induct with
  | case1 => intro h; rw [firstDedup] at h; cases h
  | case2 y ys ih =>
    intro h
    rw [firstDedup] at h
    rcases List.mem_cons.mp h with h | h
    · exact h ▸ List.mem_cons_self _ _
    · exact List.mem_cons_of_mem _ (List.mem_of_mem_filter (ih h))

theorem lineRecord_some_nonblank {parse : String → Option MemoryItem} {l : String}
    {item : MemoryItem} (h : lineRecord parse l = some item) :
    (trimS l).data.isEmpty = false := by
  unfold lineRecord at h
  by_cases hb : (trimS l).data.isEmpty
  · rw [if_pos hb] at h; cases h
  · exact Bool.of_not_eq_true hb

/-- Unrolling the compaction fold from any intermediate loop state. -/
theorem compact_foldl_spec (parse : String → Option MemoryItem) :
    ∀ (lines : List String) (out seen : List String) (read written : Nat),
      lines.foldl (compactLine parse) (out, seen, read, written) =
        (out ++ keptLines parse seen lines,
         seen ++ keptIds parse seen lines,
         read + (lines.filter fun l => !(trimS l).data.isEmpty).length,
         written + (keptLines parse seen lines).length) := by
  intro lines
  induction lines with
  | nil => intro out seen read written; simp [keptLines, keptIds]
  | cons l ls ih =>
    intro out seen read written
    rw [List.foldl_cons]
    by_cases hb : (trimS l).data.isEmpty
    · have hstep : compactLine parse (out, seen, read, written) l =
          (out, seen, read, written) := by
        unfold compactLine
        simp [hb]
      have hrec : lineRecord parse l = none := by
        unfold lineRecord
        rw [if_pos hb]
      rw [hstep, ih]
      simp [keptLines, keptIds, hrec, List.filter_cons, hb]
    · have hbf : (trimS l).data.isEmpty = false := Bool.of_not_eq_true hb
      have hrec : lineRecord parse l = parse (trimS l) := by
        unfold lineRecord
        rw [if_neg hb]
      cases hp : parse (trimS l) with
      | none =>
        have hstep : compactLine parse (out, seen, read, written) l =
            (out, seen, read + 1, written) := by
          unfold compactLine
          simp [hbf, hp]
        rw [hstep, ih]
        simp only [keptLines, keptIds, hrec, hp, List.filter_cons, hbf, Bool.not_false,
          if_true, List.length_cons, Prod.mk.injEq, true_and, and_true]
        try omega
      | some item =>
        by_cases hm : item.id ∈ seen
        · have hstep : compactLine parse (out, seen, read, written) l =
              (out, seen, read + 1, written) := by
            unfold compactLine
            simp [hbf, hp, hm]
          rw [hstep, ih]
          simp only [keptLines, keptIds, hrec, hp, if_pos hm, List.filter_cons, hbf,
            Bool.not_false, if_true, List.length_cons, Prod.mk.injEq, true_and, and_true]
          try omega
        · have hstep : compactLine parse (out, seen, read, written) l =
              (out ++ [trimS l], seen ++ [item.id], read + 1, written + 1) := by
            unfold compactLine
            simp [hbf, hp, hm]
          rw [hstep, ih]
          simp only [keptLines, keptIds, hrec, hp, if_neg hm, List.filter_cons, hbf,
            Bool.not_false, if_true, List.length_cons, List.append_assoc,
            List.singleton_append, Prod.mk.injEq, true_and, and_true]
          try omega

/-- `compact_jsonl` in terms of the recursive descriptions. -/
theorem compact_jsonl_eq_keptLines (parse : String → Option MemoryItem)
    (lines : List String) :
    compact_jsonl parse lines =
      (keptLines parse [] lines,
       (lines.filter fun l => !(trimS l).data.isEmpty).length,
       (keptLines parse [] lines).length) := by
  unfold compact_jsonl
  rw [compact_foldl_spec]
  simp

/-- The kept lines are the trimmed first occurrences of the ids that are
new relative to `seen`, one per distinct id. -/
theorem keptLines_eq_spec (parse : String → Option MemoryItem) :
    ∀ (lines : List String) (seen : List String),
      keptLines parse seen lines =
        (firstDedup ((parsedIds parse lines).filter
            fun id => !(decide (id ∈ seen)))).filterMap
          (firstLineFor parse lines) := by
  intro lines
  induction lines with
  | nil =>
    intro seen
    simp only [keptLines, parsedIds, List.filterMap_nil, List.filter_nil]
    rw [firstDedup]
    rfl
  | cons l ls ih =>
    intro seen
    cases hr : lineRecord parse l with
    | none =>
      have hfun : firstLineFor parse (l :: ls) = firstLineFor parse ls := by
        funext id
        unfold firstLineFor
        rw [List.find?_cons, decide_eq_false (by simp [hr])]
      have hids : parsedIds parse (l :: ls) = parsedIds parse ls := by
        unfold parsedIds
        rw [List.filterMap_cons, hr]
        rfl
      simp only [keptLines, hr, hids, hfun]
      exact ih seen
    | some item =>
      have hids : parsedIds parse (l :: ls) = item.id :: parsedIds parse ls := by
        unfold parsedIds
        rw [List.filterMap_cons, hr]
        rfl
      by_cases hm : item.id ∈ seen
      · have hcongr : ∀ id ∈ firstDedup ((parsedIds parse ls).filter
              fun id => !(decide (id ∈ seen))),
            firstLineFor parse (l :: ls) id = firstLineFor parse ls id := by
          intro id hid
          have hmem := List.mem_filter.mp (mem_firstDedup hid)
          have hnot : id ∉ seen := by simpa using hmem.2
          have hne : item.id ≠ id := fun he => hnot (he ▸ hm)
          unfold firstLineFor
          rw [List.find?_cons, decide_eq_false (by simp [hr, hne])]
        simp only [keptLines, hr, if_pos hm, hids, List.filter_cons,
          decide_eq_true hm, Bool.not_true, ite_false]
        rw [ih seen]
        exact (List.filterMap_congr hcongr).symm
      · have hfuse : ((parsedIds parse ls).filter
              fun id => !(decide (id ∈ seen))).filter (fun d => !(d = item.id : Bool)) =
            (parsedIds parse ls).filter
              fun id => !(decide (id ∈ seen ++ [item.id])) := by
          rw [List.filter_filter]
          apply List.filter_congr
          intro x _
          by_cases h1 : x ∈ seen <;> by_cases h2 : x = item.id <;>
            simp [h1, h2, List.mem_append]
        have hhead : firstLineFor parse (l :: ls) item.id = some (trimS l) := by
          unfold firstLineFor
          rw [List.find?_cons, decide_eq_true (by simp [hr])]
          rfl
        have hcongr : ∀ id ∈ firstDedup ((parsedIds parse ls).filter
              fun id => !(decide (id ∈ seen ++ [item.id]))),
            firstLineFor parse (l :: ls) id = firstLineFor parse ls id := by
          intro id hid
          have hmem := List.mem_filter.mp (mem_firstDedup hid)
          have hnot : id ∉ seen ++ [item.id] := by simpa using hmem.2
          have hne : item.id ≠ id := by
            intro he
            exact hnot (by simp [List.mem_append, he.symm])
          unfold firstLineFor
          rw [List.find?_cons, decide_eq_false (by simp [hr, hne])]
        simp only [keptLines, hr, if_neg hm, hids, List.filter_cons,
          decide_eq_false hm, Bool.not_false, ite_true]
        rw [firstDedup, hfuse, List.filterMap_cons, hhead, ih (seen ++ [item.id])]
        exact congrArg _ (List.filterMap_congr hcongr).symm

/-- At most one line is written per non-blank line read. -/
theorem keptLines_length_le (parse : String → Option MemoryItem) :
    ∀ (lines : List String) (seen : List String),
      (keptLines parse seen lines).length ≤
        (lines.filter fun l => !(trimS l).data.isEmpty).length := by
  intro lines
  induction lines with
  | nil => intro seen; simp [keptLines]
  | cons l ls ih =>
    intro seen
    cases hr : lineRecord parse l with
    | none =>
      by_cases hb : (trimS l).data.isEmpty
      · simp only [keptLines, hr, List.filter_cons, hb, Bool.not_true]
        exact ih seen
      · have hbf : (trimS l).data.isEmpty = false := Bool.of_not_eq_true hb
        simp only [keptLines, hr, List.filter_cons, hbf, Bool.not_false, if_true,
          List.length_cons]
        exact Nat.le_succ_of_le (ih seen)
    | some item =>
      have hbf := lineRecord_some_nonblank hr
      by_cases hm : item.id ∈ seen
      · simp only [keptLines, hr, if_pos hm, List.filter_cons, hbf, Bool.not_false,
          if_true, List.length_cons]
        exact Nat.le_succ_of_le (ih seen)
      · simp only [keptLines, hr, if_neg hm, List.filter_cons, hbf, Bool.not_false,
          if_true, List.length_cons]
        exact Nat.succ_le_succ (ih (seen ++ [item.id]))

/-- Claim C8, counterexample: a single input line carrying one leading blank
before a record.  The line parses (serde parses the trimmed text), its id is
distinct, but the output holds the TRIMMED line, not the original line the
claim promises; the counts are `(1, 1)`. -/
theorem c8_trimmed_line_counterexample :
    (compact_jsonl
        (fun s => if s = itemJsonLine sampleA then some sampleA else none)
        [" " ++ itemJsonLine sampleA]).1 = [itemJsonLine sampleA] ∧
    " " ++ itemJsonLine sampleA ∉
      (compact_jsonl
        (fun s => if s = itemJsonLine sampleA then some sampleA else none)
        [" " ++ itemJsonLine sampleA]).1 ∧
    (compact_jsonl
        (fun s => if s = itemJsonLine sampleA then some sampleA else none)
        [" " ++ itemJsonLine sampleA]).2 = (1, 1) := by
  refine ⟨by decide, by decide, by decide⟩

/-- Claim C8 (amended): for every input and parser, `compact_jsonl` returns
`(records_read_non_blank, records_written_unique)` with
`records_written_unique ≤ records_read_non_blank`, and its output contains
exactly one line per distinct id among the parseable lines of the input —
the first occurrence's line with surrounding whitespace trimmed (not
necessarily the original line verbatim). -/
theorem c8_compaction :
    ∀ (parse : String → Option MemoryItem) (lines : List String),
      (compact_jsonl parse lines).1 = specCompactOut parse lines ∧
      (compact_jsonl parse lines).2.1 =
        (lines.filter fun l => !(trimS l).data.isEmpty).length ∧
      (compact_jsonl parse lines).2.2 = (specCompactOut parse lines).length ∧
      (compact_jsonl parse lines).2.2 ≤ (compact_jsonl parse lines).2.1 := by
  intro parse lines
  have hout : keptLines parse [] lines = specCompactOut parse lines := by
    have := keptLines_eq_spec parse lines []
    simpa [specCompactOut] using this
  rw [compact_jsonl_eq_keptLines]
  refine ⟨hout, rfl, by rw [hout], ?_⟩
  exact keptLines_length_le parse lines []

theorem pushSpan_len_eq {st : Found} (r : Nat × Nat) (issue : String)
    (h : st.spans.length = st.issues.length) :
    (pushSpan st r issue).spans.length = (pushSpan st r issue).issues.length := by
  unfold pushSpan
  split
  · exact h
  · simp [h]

/-- A fold whose step keeps the span and issue lists in lockstep preserves
the length equality. -/
theorem foldl_len_eq {β : Type} (f : Found → β → Found)
    (hf : ∀ st b, st.spans.length = st.issues.length →
      (f st b).spans.length = (f st b).issues.length) :
    ∀ (l : List β) (st : Found), st.spans.length = st.issues.length →
      ((l.foldl f st).spans.length = (l.foldl f st).issues.length) := by
  intro l
  induction l with
  | nil => intro st h; exact h
  | cons b bs ih =>
    intro st h
    rw [List.foldl_cons]
    exact ih (f st b) (hf st b h)

/-- All four passes record spans and issues in lockstep. -/
theorem runPasses_len_eq (cs : List Char) :
    (runPasses cs).spans.length = (runPasses cs).issues.length := by
  unfold runPasses entropyPass
  apply foldl_len_eq
  · intro st sp h
    dsimp only
    split
    · exact h
    · split
      · exact pushSpan_len_eq _ _ h
      · exact h
  apply foldl_len_eq (fun st sp => pushSpan st sp "possible private key")
    (fun st sp => pushSpan_len_eq _ _)
  apply foldl_len_eq (fun st sp => pushSpan st sp "possible SSH key")
    (fun st sp => pushSpan_len_eq _ _)
  apply foldl_len_eq (fun st sp => pushSpan st sp "possible API key")
    (fun st sp => pushSpan_len_eq _ _)
  rfl

/-- Claim C6, counterexample: the API-key pass masks only the 16-character
value run, and the high-entropy pass skips — whole — the longer run that
overlaps it, leaving the tail `+abcdefghijklmnopqrstuvwx` unmasked.  On the
masked output that tail is a fresh ≥20-character high-entropy run, so the
second application reports a new issue, blocks, and masks further: the
redactor is not idempotent. -/
theorem c6_redact_not_idempotent_counterexample :
    (redact_candidate "token: ABCDEFGHIJKLMNOP+abcdefghijklmnopqrstuvwx").masked =
      "token: [REDACTED]+abcdefghijklmnopqrstuvwx" ∧
    redact_candidate "token: [REDACTED]+abcdefghijklmnopqrstuvwx" =
      { masked := "token: [REDACTED][REDACTED]"
        issues := ["high-entropy string"]
        blocked := true } ∧
    (redact_candidate
        ((redact_candidate "token: ABCDEFGHIJKLMNOP+abcdefghijklmnopqrstuvwx").masked)).masked ≠
      (redact_candidate "token: ABCDEFGHIJKLMNOP+abcdefghijklmnopqrstuvwx").masked ∧
    (redact_candidate
        ((redact_candidate "token: ABCDEFGHIJKLMNOP+abcdefghijklmnopqrstuvwx").masked)).blocked =
      true := by
  refine ⟨by decide, by decide, by decide, by decide⟩

/-- Claim C6 (amended): the redactor is idempotent on every input it passes
through clean: if `redact_candidate(x)` reports no issues then the masked
output is `x` itself, the input is not blocked, and re-running the redactor
returns the identical result.  On blocked inputs idempotence can fail: a
high-entropy run overlapping an already-recorded span is skipped whole, and
its unmasked remainder can be newly detected on the second run. -/
theorem c6_redact_idempotent_on_clean (s : String)
    (h : (redact_candidate s).issues = []) :
    (redact_candidate s).masked = s ∧
    (redact_candidate s).blocked = false ∧
    redact_candidate ((redact_candidate s).masked) = redact_candidate s := by
  have hiss : (runPasses s.data).issues = [] := h
  have hlen := runPasses_len_eq s.data
  rw [hiss] at hlen
  have hsp : (runPasses s.data).spans = [] := List.eq_nil_of_length_eq_zero hlen
  have hmask : (redact_candidate s).masked = s := by
    show String.mk (buildMasked s.data 0 (mergeSpans (runPasses s.data).spans)) = s
    rw [hsp]
    have hms : mergeSpans [] = [] := rfl
    rw [hms]
    cases s with
    | mk data => simp [buildMasked]
  refine ⟨hmask, ?_, ?_⟩
  · show (!(runPasses s.data).issues.isEmpty) = false
    rw [hiss]
    rfl
  · rw [hmask]

/-- Witness for C6 at a clean concrete input. -/
theorem c6_redact_idempotent_on_clean_witness :
    (redact_candidate "ordinary text").issues = [] ∧
    (redact_candidate "ordinary text").masked = "ordinary text" :=
  ⟨by decide, (c6_redact_idempotent_on_clean "ordinary text" (by decide)).1⟩

/-- Witness for C4 at a concrete store where the id is present. -/
theorem c4_update_archive_not_found_witness :
    (∃ r ∈ [sampleA], r.id = sampleA2.id) ∧
    (∃ rows2, SqliteMemoryStore.update [sampleA] sampleA2 = Except.ok rows2) :=
  ⟨⟨sampleA, by decide⟩,
    (c4_update_archive_not_found [sampleA] sampleA2 "a" true).2.1 ⟨sampleA, by decide⟩⟩

/-- Witness for C3 at a concrete one-entry scored list. -/
theorem c3_greedy_selection_prefix_witness :
    ∃ n, n ≤ ([(3, sampleA)] : List (Nat × MemoryItem)).length ∧
      recallSelect [(3, sampleA)] 1 10 "t" =
        (([(3, sampleA)] : List (Nat × MemoryItem)).take n).map
          (fun p => bumpCounters "t" p.2) ∧
      n ≤ 1 ∧
      sumTok (([(3, sampleA)] : List (Nat × MemoryItem)).take n) ≤ 10 ∧
      (∀ p, ([(3, sampleA)] : List (Nat × MemoryItem)).get? n = some p →
        n = 1 ∨ sumTok (([(3, sampleA)] : List (Nat × MemoryItem)).take n) + p.1 > 10) :=
  c3_greedy_selection_prefix [(3, sampleA)] 1 10 "t"
